import Mathlib

/-!
# Verification of the pdf-analyzer pipeline

A shallow embedding of the question-extraction / requirement-classification
pipeline of the `pdf-analyzer` repository (`src/analysis.py`, `src/app.py`,
`src/llm_client.py`, `src/models.py`), together with theorems settling the
specification claims about it.

Modelling conventions:
* Python strings are Lean `String`s / `List Char`; Python floats are modelled
  as rationals (`ℚ`) — every float literal in the source is an exact decimal.
* `None`-returning fallible code is `Option`; Python exceptions are an explicit
  `Except PyErr` effect.
* The regular expressions of `extract_questions_from_text` are run by a small
  backtracking engine (`RE` / `runRE` / `reFindall`) that reproduces Python
  `re.findall` semantics (leftmost match, ordered alternation, greedy
  character-class repetition, non-overlapping scan) for the construct subset
  the source uses.
-/

set_option linter.unusedVariables false
set_option linter.unnecessarySeqFocus false

namespace PdfAnalyzer

/-! ## Python string primitives -/

/-- Python whitespace: the character set matched by `str.isspace`, `str.strip()`
and `\s` in `re` (Unicode mode): ASCII whitespace, the C0/C1 separators and the
Unicode space separators. -/
def isPySpace (c : Char) : Bool :=
  c = ' ' || c = '\t' || c = '\n' || c = '\r' || c = '\x0b' || c = '\x0c' ||
  (0x1c ≤ c.val && c.val ≤ 0x1f) || c.val = 0x85 || c.val = 0xa0 ||
  c.val = 0x1680 || (0x2000 ≤ c.val && c.val ≤ 0x200a) ||
  c.val = 0x2028 || c.val = 0x2029 || c.val = 0x202f || c.val = 0x205f ||
  c.val = 0x3000

/-- Python `str.strip()` on a character list: drop whitespace from both ends. -/
def stripChars (l : List Char) : List Char :=
  ((l.dropWhile isPySpace).reverse.dropWhile isPySpace).reverse

/-- Python `str.strip()`. -/
def pyStrip (s : String) : String := ⟨stripChars s.data⟩

/-- Python `str.lower()` (modelled on ASCII letters; no claim involves
non-ASCII case folding). -/
def pyLower (s : String) : String := ⟨s.data.map Char.toLower⟩

/-- Python `str.endswith` (case-sensitive suffix test). -/
def pyEndsWith (s suffix : String) : Bool := suffix.data.isSuffixOf s.data

/-- Contiguous-sublist test: does `needle` occur consecutively in `hay`? -/
def seqIn (needle : List Char) : List Char → Bool
  | [] => needle.isEmpty
  | c :: t => needle.isPrefixOf (c :: t) || seqIn needle t

/-- Python substring containment `needle in hay`. -/
def pyContains (hay needle : String) : Bool := seqIn needle.data hay.data

/-- Decimal digits to a natural number. -/
def digitsToNat (l : List Char) : Nat :=
  l.foldl (fun n c => n * 10 + (c.toNat - '0'.toNat)) 0

/-- The character list of a string sliced as Python `s[a:b]`
(for `0 ≤ a ≤ b`). -/
def sliceStr (l : List Char) (a b : Nat) : String := ⟨(l.drop a).take (b - a)⟩

/-- Index of the last character satisfying `p` (Python `str.rfind`),
`none` when absent. -/
def rfindIdxQ (l : List Char) (p : Char → Bool) : Option Nat :=
  match l.reverse.findIdx? p with
  | some i => some (l.length - 1 - i)
  | none => none

/-! ## Python / JSON values and exceptions -/

/-- A Python value of the shapes produced by `json.loads` (numbers as
rationals, `True`/`False`/`None` as their JSON counterparts).  Objects keep
their member list in source order. -/
inductive JVal where
  | null
  | bool (b : Bool)
  | num (q : ℚ)
  | str (s : String)
  | arr (elems : List JVal)
  | obj (members : List (String × JVal))
  deriving Repr

/-- The Python exception classes arising on the modelled code paths.
`httpExc` is FastAPI's `HTTPException` (which subclasses `Exception`). -/
inductive PyErr where
  | urlError
  | httpError
  | keyError
  | indexError
  | typeError
  | valueError
  | attributeError
  | jsonDecodeError
  | validationError
  | httpExc (status : Nat) (detail : String)
  deriving Repr, DecidableEq

/-- Python truthiness of a `JVal` (`bool(v)`). -/
def pyTruthy : JVal → Bool
  | .null => false
  | .bool b => b
  | .num q => decide (q ≠ 0)
  | .str s => !s.data.isEmpty
  | .arr l => !l.isEmpty
  | .obj m => !m.isEmpty

/-- `dict.get(key)` on a dict built by `json.loads`
(duplicate keys: the last occurrence wins, as in CPython). -/
def pyGet (m : List (String × JVal)) (key : String) : Option JVal :=
  (m.reverse.find? (fun p => p.1 == key)).map (·.2)

/-- A Python subscript key: a string or a non-negative integer index. -/
inductive PyKey where
  | key (s : String)
  | idx (n : Nat)

/-- Python subscript `container[k]` for the container shapes that occur in the
adapter: dict lookup (`KeyError` when absent, also for an integer key since
JSON dict keys are strings), list index (`IndexError` out of range), string
integer index (one-character string), `TypeError` otherwise. -/
def getItem (v : JVal) (k : PyKey) : Except PyErr JVal :=
  match v, k with
  | .obj m, .key s =>
    match pyGet m s with
    | some x => .ok x
    | none => .error .keyError
  | .obj _, .idx _ => .error .keyError
  | .arr l, .idx n =>
    match l.get? n with
    | some x => .ok x
    | none => .error .indexError
  | .arr _, .key _ => .error .typeError
  | .str s, .idx n =>
    match s.data.get? n with
    | some c => .ok (.str ⟨[c]⟩)
    | none => .error .indexError
  | _, _ => .error .typeError

/-- Python `needle in container` for a string needle: substring test on
strings, element equality on lists, key membership on dicts, `TypeError`
otherwise. -/
def pyIn (needle : String) (v : JVal) : Except PyErr Bool :=
  match v with
  | .obj m => .ok (m.any (fun p => p.1 == needle))
  | .arr l => .ok (l.any (fun e => match e with | .str t => t == needle | _ => false))
  | .str s => .ok (pyContains s needle)
  | _ => .error .typeError

/-! ## `float()` coercion -/

/-- Python `float(str)`: optional sign, decimal digits with optional fraction
and exponent, surrounded by optional whitespace.  (`inf`/`nan`/underscore
forms are not modelled; no claim involves them.)  `none` where Python raises
`ValueError`. -/
def parsePyFloat (s : String) : Option ℚ :=
  let l := stripChars s.data
  let signed : Bool × List Char :=
    match l with
    | '-' :: r => (true, r)
    | '+' :: r => (false, r)
    | _ => (false, l)
  let neg := signed.1
  let l1 := signed.2
  let ip := l1.takeWhile Char.isDigit
  let l2 := l1.dropWhile Char.isDigit
  let fracStep : Option (List Char) × List Char :=
    match l2 with
    | '.' :: r => (some (r.takeWhile Char.isDigit), r.dropWhile Char.isDigit)
    | _ => (none, l2)
  let fp := fracStep.1
  let l3 := fracStep.2
  if ip.isEmpty && (fp.getD []).isEmpty then none
  else
    let expStep : Bool × Bool × List Char × List Char :=
      match l3 with
      | c :: r =>
        if c = 'e' || c = 'E' then
          let esign : Bool × List Char :=
            match r with
            | '-' :: rr => (true, rr)
            | '+' :: rr => (false, rr)
            | _ => (false, r)
          let ds := esign.2.takeWhile Char.isDigit
          (!ds.isEmpty, esign.1, ds, esign.2.dropWhile Char.isDigit)
        else (false, false, [], l3)
      | [] => (true, false, [], [])
    if !expStep.1 || !expStep.2.2.2.isEmpty then none
    else
      let frac := fp.getD []
      let mant : ℚ :=
        (digitsToNat ip : ℚ) + (digitsToNat frac : ℚ) / (10 : ℚ) ^ frac.length
      let signedMant := if neg then -mant else mant
      let e := digitsToNat expStep.2.2.1
      some (if expStep.2.1 then signedMant / (10 : ℚ) ^ e else signedMant * (10 : ℚ) ^ e)

/-- Python `float(value)` on a `JVal`: numbers and booleans coerce, strings
parse, `None`/lists/dicts raise `TypeError`, unparsable strings raise
`ValueError`. -/
def pyFloatE : JVal → Except PyErr ℚ
  | .num q => .ok q
  | .bool b => .ok (if b then 1 else 0)
  | .str s =>
    match parsePyFloat s with
    | some q => .ok q
    | none => .error .valueError
  | .null => .error .typeError
  | .arr _ => .error .typeError
  | .obj _ => .error .typeError

/-! ## `json.loads` -/

/-- JSON structural whitespace. -/
def isJsonWs (c : Char) : Bool := c = ' ' || c = '\t' || c = '\n' || c = '\r'

/-- Skip JSON structural whitespace. -/
def skipWs (l : List Char) : List Char := l.dropWhile isJsonWs

/-- Hexadecimal digit value. -/
def hexVal (c : Char) : Option Nat :=
  if '0' ≤ c ∧ c ≤ '9' then some (c.toNat - '0'.toNat)
  else if 'a' ≤ c ∧ c ≤ 'f' then some (c.toNat - 'a'.toNat + 10)
  else if 'A' ≤ c ∧ c ≤ 'F' then some (c.toNat - 'A'.toNat + 10)
  else none

/-- Parse the body of a JSON string literal (after the opening quote),
returning the decoded characters and the input after the closing quote.
Escapes are decoded; `\uXXXX` maps through `Char.ofNat` (surrogate pairs are
not recombined — no claim involves them); raw control characters are rejected
as in Python's strict mode. -/
def parseJString : Nat → List Char → Option (List Char × List Char)
  | 0, _ => none
  | _, [] => none
  | fuel + 1, '"' :: rest => some ([], rest)
  | fuel + 1, '\\' :: e :: rest =>
    let dec : Option (Char × List Char) :=
      if e = '"' then some ('"', rest)
      else if e = '\\' then some ('\\', rest)
      else if e = '/' then some ('/', rest)
      else if e = 'b' then some ('\x08', rest)
      else if e = 'f' then some ('\x0c', rest)
      else if e = 'n' then some ('\n', rest)
      else if e = 'r' then some ('\r', rest)
      else if e = 't' then some ('\t', rest)
      else if e = 'u' then
        match rest with
        | h1 :: h2 :: h3 :: h4 :: rest' =>
          match hexVal h1, hexVal h2, hexVal h3, hexVal h4 with
          | some a, some b, some c, some d =>
            some (Char.ofNat (((a * 16 + b) * 16 + c) * 16 + d), rest')
          | _, _, _, _ => none
        | _ => none
      else none
    match dec with
    | some (ch, rem) => (parseJString fuel rem).map (fun p => (ch :: p.1, p.2))
    | none => none
  | fuel + 1, c :: rest =>
    if c.toNat < 0x20 then none
    else (parseJString fuel rest).map (fun p => (c :: p.1, p.2))

/-- Parse a JSON number per the JSON grammar
`-? (0 | [1-9][0-9]*) (. [0-9]+)? ([eE][+-]?[0-9]+)?`. -/
def parseJNumber (l : List Char) : Option (ℚ × List Char) :=
  let signed : Bool × List Char :=
    match l with
    | '-' :: r => (true, r)
    | _ => (false, l)
  let neg := signed.1
  let l1 := signed.2
  let ip := l1.takeWhile Char.isDigit
  let l2 := l1.dropWhile Char.isDigit
  if ip.isEmpty then none
  else if decide (1 < ip.length) && ip.headD '1' = '0' then none
  else
    let fracStep : Option (List Char) × List Char :=
      match l2 with
      | '.' :: r => (some (r.takeWhile Char.isDigit), r.dropWhile Char.isDigit)
      | _ => (none, l2)
    if fracStep.1 == some [] then none
    else
      let frac := fracStep.1.getD []
      let l3 := fracStep.2
      let expStep : Bool × Bool × List Char × List Char :=
        match l3 with
        | c :: r =>
          if c = 'e' || c = 'E' then
            let esign : Bool × List Char :=
              match r with
              | '-' :: rr => (true, rr)
              | '+' :: rr => (false, rr)
              | _ => (false, r)
            let ds := esign.2.takeWhile Char.isDigit
            (!ds.isEmpty, esign.1, ds, esign.2.dropWhile Char.isDigit)
          else (true, false, [], l3)
        | [] => (true, false, [], [])
      if !expStep.1 then none
      else
        let mant : ℚ :=
          (digitsToNat ip : ℚ) + (digitsToNat frac : ℚ) / (10 : ℚ) ^ frac.length
        let signedMant := if neg then -mant else mant
        let e := digitsToNat expStep.2.2.1
        some (if expStep.2.1 then signedMant / (10 : ℚ) ^ e
              else signedMant * (10 : ℚ) ^ e, expStep.2.2.2)

/-- A pending task of the recursive-descent JSON parser: parse one value,
the members of an object (after the opening brace), or the elements of an
array (after the opening bracket). -/
inductive JTask where
  | val (l : List Char)
  | members (l : List Char) (acc : List (String × JVal))
  | elems (l : List Char) (acc : List JVal)

/-- Fuel-indexed recursive-descent JSON parser (single structural recursion on
the fuel, so that it reduces definitionally). -/
def parseJ : Nat → JTask → Option (JVal × List Char)
  | 0, _ => none
  | fuel + 1, .val l =>
    (match skipWs l with
    | [] => none
    | c :: rest =>
      if c = '"' then
        (parseJString (fuel + 1) rest).map (fun p => (JVal.str ⟨p.1⟩, p.2))
      else if c = '\x7b' then
        match skipWs rest with
        | '\x7d' :: rest' => some (.obj [], rest')
        | _ => parseJ fuel (.members rest [])
      else if c = '[' then
        match skipWs rest with
        | ']' :: rest' => some (.arr [], rest')
        | _ => parseJ fuel (.elems rest [])
      else if c = 't' then
        match rest with
        | 'r' :: 'u' :: 'e' :: r => some (.bool true, r)
        | _ => none
      else if c = 'f' then
        match rest with
        | 'a' :: 'l' :: 's' :: 'e' :: r => some (.bool false, r)
        | _ => none
      else if c = 'n' then
        match rest with
        | 'u' :: 'l' :: 'l' :: r => some (.null, r)
        | _ => none
      else
        (parseJNumber (c :: rest)).map (fun p => (JVal.num p.1, p.2)))
  | fuel + 1, .members l acc =>
    (match skipWs l with
    | '"' :: rest =>
      match parseJString (fuel + 1) rest with
      | some (key, rest1) =>
        match skipWs rest1 with
        | ':' :: rest2 =>
          match parseJ fuel (.val rest2) with
          | some (v, rest3) =>
            let acc' := acc ++ [(⟨key⟩, v)]
            match skipWs rest3 with
            | ',' :: rest4 => parseJ fuel (.members rest4 acc')
            | '\x7d' :: rest4 => some (.obj acc', rest4)
            | _ => none
          | none => none
        | _ => none
      | none => none
    | _ => none)
  | fuel + 1, .elems l acc =>
    (match parseJ fuel (.val l) with
    | some (v, rest) =>
      let acc' := acc ++ [v]
      match skipWs rest with
      | ',' :: rest' => parseJ fuel (.elems rest' acc')
      | ']' :: rest' => some (.arr acc', rest')
      | _ => none
    | none => none)

/-- Parse one JSON value. -/
def parseJVal (fuel : Nat) (l : List Char) : Option (JVal × List Char) :=
  parseJ fuel (.val l)

/-- Python `json.loads`: parse one JSON document, allowing surrounding
whitespace and requiring the whole input to be consumed.  `none` where Python
raises `json.JSONDecodeError`.  (The non-standard `NaN`/`Infinity` extensions
are not modelled; no claim involves them.) -/
def pyJsonLoads (s : String) : Option JVal :=
  match parseJVal (2 * s.data.length + 2) s.data with
  | some (v, rest) => if (skipWs rest).isEmpty then some v else none
  | none => none

/-! ## `llm_client._extract_json_from_text` (identical copy in `app.py`) -/

/-- `_extract_json_from_text` from `src/llm_client.py` lines 14–29 (the copy in
`src/app.py` lines 163–178 is textually identical): strict parse of the
stripped input, then a first-`&#123;`-to-last-`&#125;` substring parse; every failure
yields `none`. -/
def _extract_json_from_text (text : String) : Option JVal :=
  let t := pyStrip text
  if t.data.isEmpty then none
  else
    match pyJsonLoads t with
    | some v => some v
    | none =>
      match t.data.findIdx? (fun c => c = '\x7b'), rfindIdxQ t.data (fun c => c = '\x7d') with
      | some a, some b =>
        if b ≤ a then none
        else pyJsonLoads (sliceStr t.data a (b + 1))
      | _, _ => none

/-! ## A backtracking regex engine for the source's patterns -/

/-- The regular-expression construct subset used by
`extract_questions_from_text`: the empty pattern, single-character classes,
greedy `*`/`+` over a character class, concatenation, ordered alternation, the
MULTILINE `^` anchor, and one capture group. -/
inductive RE where
  | eps
  | cls (f : Char → Bool)
  | star (f : Char → Bool)
  | plus (f : Char → Bool)
  | seq (a b : RE)
  | alt (a b : RE)
  | bolML
  | grp (r : RE)

/-- Length of the maximal run of characters satisfying `f` starting at `pos`. -/
def runLen (f : Char → Bool) (s : List Char) (pos : Nat) : Nat :=
  ((s.drop pos).takeWhile f).length

/-- All end positions (with the capture-group span, when one was traversed) of
matches of `r` anchored at `pos`, in Python backtracking priority order: the
head of the list is the match Python's engine finds.  Greedy repetition lists
the longest extent first; alternation lists the left branch first;
concatenation is lexicographic in that order. -/
def runRE (r : RE) (s : List Char) (pos : Nat) :
    List (Nat × Option (Nat × Nat)) :=
  match r with
  | .eps => [(pos, none)]
  | .cls f =>
    match s.get? pos with
    | some c => if f c then [(pos + 1, none)] else []
    | none => []
  | .star f =>
    let k := runLen f s pos
    (List.range (k + 1)).map (fun i => (pos + k - i, none))
  | .plus f =>
    let k := runLen f s pos
    (List.range k).map (fun i => (pos + k - i, none))
  | .seq a b =>
    (runRE a s pos).flatMap (fun p =>
      (runRE b s p.1).map (fun q => (q.1, p.2.orElse (fun _ => q.2))))
  | .alt a b => runRE a s pos ++ runRE b s pos
  | .bolML =>
    if pos = 0 ∨ s.get? (pos - 1) = some '\n' then [(pos, none)] else []
  | .grp r' => (runRE r' s pos).map (fun p => (p.1, some (pos, p.1)))

/-- `re.findall` with one capture group: scan left to right, take the engine's
priority-first match at the leftmost matching position, emit the group span,
continue after the end of the full match (never re-scanning the same
position).  Fuel-indexed; `reFindall` supplies sufficient fuel. -/
def reFindallAux (r : RE) (s : List Char) : Nat → Nat → List (Nat × Nat)
  | 0, _ => []
  | fuel + 1, pos =>
    if s.length < pos then []
    else
      match runRE r s pos with
      | (e, some g) :: _ => g :: reFindallAux r s fuel (max e (pos + 1))
      | _ => reFindallAux r s fuel (pos + 1)

/-- `re.findall(pattern, s)` for a pattern with one capture group: the list of
captured substrings. -/
def reFindall (r : RE) (s : List Char) : List String :=
  (reFindallAux r s (s.length + 1) 0).map (fun g => sliceStr s g.1 g.2)

/-! ## The three pattern families of `extract_questions_from_text` -/

/-- `[^\n?]` -/
def notNlQ (c : Char) : Bool := c != '\n' && c != '?'

/-- `[^?]` -/
def notQ (c : Char) : Bool := c != '?'

/-- `[A-Z]` (no IGNORECASE on pattern 2). -/
def upperAZ (c : Char) : Bool := 'A' ≤ c && c ≤ 'Z'

/-- `\d` (modelled on ASCII digits; no claim involves non-ASCII digits). -/
def isDig (c : Char) : Bool := c.isDigit

/-- `\?` -/
def isQm (c : Char) : Bool := c = '?'

/-- `[\.\)]` -/
def dotOrParen (c : Char) : Bool := c = '.' || c = ')'

/-- A case-insensitively matched literal (`re.IGNORECASE`, ASCII model). -/
def litCI (w : String) : RE :=
  w.data.foldr (fun c r => RE.seq (RE.cls (fun x => x.toLower == c.toLower)) r) RE.eps

/-- The capture-group body of pattern 1: `\d+[\.\)]\s*[^\n?]*\?`
(concatenation associated as "everything before the final `\?`" then `\?`;
regex concatenation is associative, so the match list is unchanged). -/
def body1 : RE :=
  .seq (.seq (.plus isDig) (.seq (.cls dotOrParen)
    (.seq (.star isPySpace) (.star notNlQ)))) (.cls isQm)

/-- The part of pattern 1 before the capture group: `(?:^|\n)\s*`. -/
def numberedPre : RE :=
  .seq (.alt .bolML (.cls (fun c => c == '\n'))) (.star isPySpace)

/-- Pattern 1: `(?:^|\n)\s*(\d+[\.\)]\s*[^\n?]*\?)` with
`re.MULTILINE | re.IGNORECASE` (IGNORECASE has no effect: the pattern has no
cased literal). -/
def numberedRE : RE := .seq numberedPre (.grp body1)

/-- The capture-group body of pattern 2: `[A-Z][^?]*\?`. -/
def body2 : RE := .seq (.seq (.cls upperAZ) (.star notQ)) (.cls isQm)

/-- Pattern 2: `([A-Z][^?]*\?)` (no flags). -/
def sentenceRE : RE := .grp body2

/-- The capture-group body of an audit pattern: lead literal, `[^?]*`, `\?`. -/
def auditBody (w : String) : RE := .seq (.seq (litCI w) (.star notQ)) (.cls isQm)

/-- One audit pattern, e.g. `(Does [^?]*\?)`, with `re.IGNORECASE`. -/
def auditRE (w : String) : RE := .grp (auditBody w)

/-- The audit-phrase leads, in source order. -/
def auditLeads : List String :=
  ["Does ", "Is there ", "Are ", "Has ", "Have ", "Was ", "Were "]

/-- The concatenated raw candidate list: family 1, then family 2, then the
seven audit patterns in source order. -/
def rawQuestions (s : List Char) : List String :=
  reFindall numberedRE s ++ reFindall sentenceRE s ++
    auditLeads.flatMap (fun w => reFindall (auditRE w) s)

/-- The clean-and-deduplicate loop of `extract_questions_from_text`
(`seen` in the source always holds exactly the elements of
`cleaned_questions`, so membership is tested against the accumulator). -/
def cleanLoop : List String → List String → List String
  | acc, [] => acc
  | acc, q :: rest =>
    let q' := pyStrip q
    if 10 < q'.length ∧ q' ∉ acc then cleanLoop (acc ++ [q']) rest
    else cleanLoop acc rest

/-- `extract_questions_from_text` from `src/analysis.py` lines 5–46 (the copy
in `src/app.py` lines 68–109 is textually identical). -/
def extract_questions_from_text (text : String) : List String :=
  cleanLoop [] (rawQuestions text.data)

/-! ## The normalization helpers and heuristic classifier of `src/analysis.py` -/

/-- `_normalize_bool` from `src/analysis.py` lines 49–58. -/
def _normalize_bool : JVal → Option Bool
  | .bool b => some b
  | .str s =>
    let lowered := pyLower (pyStrip s)
    if lowered ∈ ["true", "yes", "y", "met", "compliant", "satisfied", "fulfilled"]
      then some true
    else if lowered ∈ ["false", "no", "n", "not met", "non-compliant", "missing", "fails"]
      then some false
    else none
  | _ => none

/-- `_derive_requirement_met` from `src/analysis.py` lines 61–65: the
`requirement_met` field when it normalizes, else the normalized answer. -/
def _derive_requirement_met (answer_value requirement_value : JVal) : Option Bool :=
  match _normalize_bool requirement_value with
  | some b => some b
  | none => _normalize_bool answer_value

/-- `_parse_confidence` from `src/analysis.py` lines 68–72:
`float(value) if value is not None else default`, with
`TypeError`/`ValueError` caught and yielding the default. -/
def _parse_confidence (value : JVal) (default : ℚ) : ℚ :=
  match value with
  | .null => default
  | v =>
    match pyFloatE v with
    | .ok q => q
    | .error _ => default

/-- The positive keyword list of `analyze_requirement`. -/
def positive_keywords : List String :=
  ["yes", "implemented", "compliant", "meets", "satisfies", "fulfills"]

/-- The negative keyword list of `analyze_requirement`. -/
def negative_keywords : List String :=
  ["no", "missing", "non-compliant", "fails", "violates", "lacks"]

/-- The result of `analyze_requirement` (the `src/analysis.py` copy also
returns constant `answer=None`, `evidence=None` members, omitted here; the
`src/app.py` copy returns exactly these three fields). -/
structure AnalyzeResult where
  requirement_met : Option Bool
  confidence : ℚ
  reasoning : String
  deriving Repr, DecidableEq

/-- `has_positive` of `analyze_requirement`: some positive keyword occurs as a
substring of the lower-cased question. -/
def has_positive (question_lower : String) : Bool :=
  positive_keywords.any (fun k => pyContains question_lower k)

/-- `has_negative` of `analyze_requirement`: some negative keyword occurs as a
substring of the lower-cased question. -/
def has_negative (question_lower : String) : Bool :=
  negative_keywords.any (fun k => pyContains question_lower k)

/-- `analyze_requirement` from `src/analysis.py` lines 75–118 (the copy in
`src/app.py` lines 112–153 is identical in these fields).  The initial
`requirement_met = False, confidence = 0.5, reasoning = "Question extracted…"`
assignments in the source are dead: the if/elif/else chain overwrites them on
every branch. -/
def analyze_requirement (question : String) : AnalyzeResult :=
  let question_lower := pyLower question
  if has_positive question_lower && !has_negative question_lower then
    ⟨some true, 7/10,
      "Question contains positive indicators suggesting requirement may be met."⟩
  else if has_negative question_lower then
    ⟨some false, 7/10,
      "Question contains negative indicators suggesting requirement may not be met."⟩
  else
    ⟨none, 3/10,
      "Cannot determine requirement status from question text alone. Requires evidence review."⟩

/-! ## The LLM backend adapter (`src/llm_client.py`) -/

/-- The observable behaviour of one backend HTTP call:
`urllib.request.urlopen` either raises `URLError` (network failure), raises
`HTTPError` (HTTP error status), or yields a response body. -/
inductive NetResult where
  | urlError
  | httpError
  | ok (body : String)
  deriving Repr, DecidableEq

/-- The exception classes caught by the adapters' `except` clause:
`(urllib.error.URLError, urllib.error.HTTPError, KeyError,
json.JSONDecodeError)`. -/
def caughtByAdapter : PyErr → Bool
  | .urlError => true
  | .httpError => true
  | .keyError => true
  | .jsonDecodeError => true
  | _ => false

/-- `LLM_MAX_QUESTIONS` (environment default 200). -/
def LLM_MAX_QUESTIONS : Nat := 200

/-- The `try`-block of `_call_gemini` (`src/llm_client.py` lines 53–64), given
the outcome of the HTTP call (the prompt and payload affect only what is sent,
not the response handling). -/
def callGeminiTry (net : NetResult) : Except PyErr (Option (List JVal)) := do
  let body ← match net with
    | .urlError => throw PyErr.urlError
    | .httpError => throw PyErr.httpError
    | .ok b => pure b
  let response_json ← match pyJsonLoads body with
    | some v => pure v
    | none => throw PyErr.jsonDecodeError
  let c1 ← getItem response_json (.key "candidates")
  let c2 ← getItem c1 (.idx 0)
  let c3 ← getItem c2 (.key "content")
  let c4 ← getItem c3 (.key "parts")
  let c5 ← getItem c4 (.idx 0)
  let content ← getItem c5 (.key "text")
  -- `_extract_json_from_text(content)` begins with `content.strip()`:
  -- AttributeError unless `content` is a string
  let contentStr ← match content with
    | .str s => pure s
    | _ => throw PyErr.attributeError
  let parsed := _extract_json_from_text contentStr
  -- `if not parsed or "questions" not in parsed: return None`
  match parsed with
  | none => pure none
  | some v =>
    if !pyTruthy v then pure none
    else do
      let hasQ ← pyIn "questions" v
      if !hasQ then pure none
      else do
        let questions ← getItem v (.key "questions")
        -- `if not isinstance(questions, list): return None`
        match questions with
        | .arr l => pure (some (l.take LLM_MAX_QUESTIONS))
        | _ => pure none

/-- `_call_gemini` from `src/llm_client.py` lines 32–66: the `try`-block with
`URLError`/`HTTPError`/`KeyError`/`JSONDecodeError` caught and converted to
`None`; any other exception propagates. -/
def _call_gemini (net : NetResult) : Except PyErr (Option (List JVal)) :=
  match callGeminiTry net with
  | .ok v => .ok v
  | .error e => if caughtByAdapter e then .ok none else .error e

/-- `GEMINI_MODEL` (environment default). -/
def GEMINI_MODEL : String := "gemini-2.5-flash"

/-- `GEMINI_FALLBACK_MODEL` (environment default). -/
def GEMINI_FALLBACK_MODEL : String := "gemini-2.0-flash"

/-- The `models/` stem normalization applied to both model identifiers
(`src/llm_client.py` lines 97–102). -/
def normalizeModelName (m : String) : String :=
  if "models/".data.isPrefixOf m.data then ⟨m.data.drop 7⟩ else m

/-- `llm_extract_and_analyze` from `src/llm_client.py` lines 69–108, with the
behaviour of each outbound call (primary and fallback model) supplied as a
parameter.  `hasKey` is the truthiness of `GEMINI_API_KEY`. -/
def llm_extract_and_analyze (hasKey : Bool) (primaryNet fallbackNet : NetResult) :
    Except PyErr (Option (List JVal)) :=
  if !hasKey then .ok none
  else
    let model_name := normalizeModelName GEMINI_MODEL
    let fallback_model := normalizeModelName GEMINI_FALLBACK_MODEL
    match _call_gemini primaryNet with
    | .error e => .error e
    | .ok (some r) => .ok (some r)
    | .ok none =>
      if !fallback_model.data.isEmpty ∧ fallback_model ≠ model_name then
        _call_gemini fallbackNet
      else .ok none

/-! ## `src/models.py` and the spec-modelled record building -/

namespace Models

/-- `QuestionResult` from `src/models.py` lines 6–12 (the record variant with
`answer`/`evidence` fields). -/
structure QuestionResult where
  question : String
  requirement_met : Option Bool
  confidence : ℚ
  reasoning : String
  answer : Option String
  evidence : Option String
  deriving Repr, DecidableEq

end Models

/-- Modelled from the spec: §4.6 step 2 carries a nullable string field
through "verbatim (trimmed, empty→absent)". -/
def optTrimmed : Option JVal → Option String
  | some (.str s) => let t := pyStrip s; if t.data.isEmpty then none else some t
  | _ => none

/-- Modelled from the spec: the record-building step (§4.6 step 2 with §4.5)
of the Pipeline Orchestrator of the `models.py`/`llm_client.py`/`analysis.py`
module variant, whose orchestrator module is not under `src/` — only its
helpers are (the Normalization Layer `_derive_requirement_met` /
`_parse_confidence` exported by `src/analysis.py.__all__`, and the record type
in `src/models.py`).  For one raw adapter record: require a dict with a
non-empty trimmed string `question` (otherwise skip, yielding `none`); derive
`requirement_met` and `confidence` through the real normalization helpers
(default confidence 0.3); carry `answer`/`evidence` through trimmed with empty
becoming absent; carry `reasoning` when a string is supplied (default text
otherwise, per the §3 invariant that `reasoning` is non-empty). -/
def build_record (item : JVal) : Option Models.QuestionResult :=
  match item with
  | .obj m =>
    match pyGet m "question" with
    | some (.str q) =>
      let q' := pyStrip q
      if q'.data.isEmpty then none
      else
        some
          ⟨q',
            _derive_requirement_met ((pyGet m "answer").getD .null)
              ((pyGet m "requirement_met").getD .null),
            _parse_confidence ((pyGet m "confidence").getD .null) (3/10),
            (match pyGet m "reasoning" with
              | some (.str r) =>
                if r.data.isEmpty then "LLM analysis provided." else r
              | _ => "LLM analysis provided."),
            optTrimmed (pyGet m "answer"), optTrimmed (pyGet m "evidence")⟩
    | _ => none
  | _ => none

/-! ## The upload endpoint of `src/app.py` -/

/-- `QuestionResult` from `src/app.py` lines 54–58 (this variant has no
`answer`/`evidence` fields). -/
structure QuestionResult where
  question : String
  requirement_met : Option Bool
  confidence : ℚ
  reasoning : String
  deriving Repr, DecidableEq

/-- `AnalysisResponse` from `src/app.py` lines 61–65. -/
structure AnalysisResponse where
  questions : List QuestionResult
  total_questions : Nat
  met_count : Nat
  not_met_count : Nat
  deriving Repr, DecidableEq

/-- The HTTP outcome of one `POST /upload` request: a 200 with an
`AnalysisResponse`, a 400 raised outside the `try`-block, or the 500 produced
by `except Exception as e: raise HTTPException(500, f"Error processing PDF:
{str(e)}")`, carrying the caught exception. -/
inductive HttpOutcome where
  | success (r : AnalysisResponse)
  | clientError (status : Nat) (detail : String)
  | serverError (inner : PyErr)
  deriving Repr, DecidableEq

/-- Pydantic's validation of an `Optional[bool]` field (external-library
model): `None` and booleans pass through; the lax coercions accept 0/1
numbers and the usual true/false strings; anything else raises
`ValidationError`.  (No theorem depends on the string/number rows.) -/
def pydanticOptBool (v : JVal) : Except PyErr (Option Bool) :=
  match v with
  | .null => .ok none
  | .bool b => .ok (some b)
  | .num q =>
    if q = 0 then .ok (some false)
    else if q = 1 then .ok (some true)
    else .error .validationError
  | .str s =>
    let t := pyLower s
    if t ∈ ["true", "t", "yes", "y", "on", "1"] then .ok (some true)
    else if t ∈ ["false", "f", "no", "n", "off", "0"] then .ok (some false)
    else .error .validationError
  | _ => .error .validationError

/-- Pydantic's validation of a `str` field (external-library model). -/
def pydanticStr (v : JVal) : Except PyErr String :=
  match v with
  | .str s => .ok s
  | _ => .error .validationError

/-- The first per-record loop of `upload_pdf` (`src/app.py` lines 312–320):
collect `item.get("question").strip()` for every dict record with a truthy
`question`, skipping non-dicts and absent/falsy questions; `.strip()` on a
truthy non-string raises `AttributeError`.  `acc` is the `questions` list
being appended to. -/
def collectQuestionTexts (items : List JVal) (acc : List String) :
    Except PyErr (List String) :=
  match items with
  | [] => .ok acc
  | item :: rest =>
    match item with
    | .obj m =>
      match pyGet m "question" with
      | none => collectQuestionTexts rest acc
      | some v =>
        if pyTruthy v then
          match v with
          | .str s => collectQuestionTexts rest (acc ++ [pyStrip s])
          | _ => .error .attributeError
        else collectQuestionTexts rest acc
    | _ => collectQuestionTexts rest acc

/-- One record of the second per-record loop of `upload_pdf` (`src/app.py`
lines 333–344): `question_text = item.get("question", "").strip()` (skip when
the stripped text is empty; `.strip()` on a non-string — e.g. an explicit
`null` question — raises `AttributeError`), then `QuestionResult(question=…,
requirement_met=item.get("requirement_met"),
confidence=float(item.get("confidence", 0.3)),
reasoning=item.get("reasoning", "LLM analysis provided."))`.  Python evaluates
the `float(...)` argument before pydantic validates the fields. -/
def buildLLMRecord (m : List (String × JVal)) :
    Except PyErr (Option QuestionResult) :=
  match (pyGet m "question").getD (.str "") with
  | .str s =>
    let q := pyStrip s
    if q.data.isEmpty then .ok none
    else
      match pyFloatE ((pyGet m "confidence").getD (.num (3/10))) with
      | .error e => .error e
      | .ok conf =>
        match pydanticOptBool ((pyGet m "requirement_met").getD .null) with
        | .error e => .error e
        | .ok rm =>
          match pydanticStr ((pyGet m "reasoning").getD (.str "LLM analysis provided.")) with
          | .error e => .error e
          | .ok reasoning => .ok (some ⟨q, rm, conf, reasoning⟩)
  | _ => .error .attributeError

/-- The second per-record loop of `upload_pdf` (`src/app.py` lines 332–344),
skipping non-dict records.  `acc` is the `results` list being appended to. -/
def buildLLMResults (items : List JVal) (acc : List QuestionResult) :
    Except PyErr (List QuestionResult) :=
  match items with
  | [] => .ok acc
  | item :: rest =>
    match item with
    | .obj m =>
      match buildLLMRecord m with
      | .ok (some r) => buildLLMResults rest (acc ++ [r])
      | .ok none => buildLLMResults rest acc
      | .error e => .error e
    | _ => buildLLMResults rest acc

/-- One record of the heuristic-fallback loop of `upload_pdf` (`src/app.py`
lines 346–353): `QuestionResult` built from `analyze_requirement(question)`. -/
def heuristicResult (question : String) : QuestionResult :=
  let analysis := analyze_requirement question
  ⟨question, analysis.requirement_met, analysis.confidence, analysis.reasoning⟩

/-- The statistics block of `upload_pdf` (`src/app.py` lines 355–364):
`met_count = sum(1 for r in results if r.requirement_met is True)`,
`not_met_count` likewise with `False`, `total_questions = len(results)`. -/
def mkResponse (results : List QuestionResult) : AnalysisResponse :=
  ⟨results, results.length,
    results.countP (fun r => r.requirement_met == some true),
    results.countP (fun r => r.requirement_met == some false)⟩

/-- The `try`-block of `upload_pdf` (`src/app.py` lines 276–364), given the
extracted PDF text and the outcome of the `llm_extract_and_analyze` call (file
I/O and `pdfplumber` are the abstracted text-extractor collaborator; `text` is
the page-concatenated extraction result).  The `HTTPException`s raised in the
source `try`-block surface here as `.error` values: the enclosing
`except Exception` catches them. -/
def uploadTry (text : String) (llm : Except PyErr (Option (List JVal))) :
    Except PyErr AnalysisResponse :=
  if (pyStrip text).data.isEmpty then
    .error (.httpExc 400 "Could not extract text from PDF")
  else
    match llm with
    | .error e => .error e
    | .ok llm_questions =>
      match (match llm_questions with
        | some items => collectQuestionTexts items []
        | none => .ok (extract_questions_from_text text) : Except PyErr (List String)) with
      | .error e => .error e
      | .ok questions =>
        if questions.isEmpty then
          .error (.httpExc 400
            "No questions found in PDF. Please ensure the document contains audit questions.")
        else
          match (match llm_questions with
            | some items => buildLLMResults items []
            | none => .ok (questions.map heuristicResult) :
              Except PyErr (List QuestionResult)) with
          | .error e => .error e
          | .ok results => .ok (mkResponse results)

/-- `upload_pdf` from `src/app.py` lines 268–367: the case-sensitive `.pdf`
suffix check (outside the `try`-block — a genuine 400), then the `try`-block
with `except Exception as e: raise HTTPException(status_code=500, …)`, which
also catches every `HTTPException(400)` raised inside the `try`-block. -/
def upload_pdf (filename : String) (text : String)
    (llm : Except PyErr (Option (List JVal))) : HttpOutcome :=
  if !(pyEndsWith filename ".pdf") then .clientError 400 "File must be a PDF"
  else
    match uploadTry text llm with
    | .ok r => .success r
    | .error e => .serverError e

/-! ## Record predicates for the upload loops -/

/-- A raw record both `upload_pdf` loops skip silently: not a dict, no
`question` key, or a question that is a string with empty trim. -/
def skippableRecord (item : JVal) : Bool :=
  match item with
  | .obj m =>
    match pyGet m "question" with
    | none => true
    | some (.str s) => (pyStrip s).data.isEmpty
    | some _ => false
  | _ => true

/-- A raw record both `upload_pdf` loops accept: a dict whose `question` is a
string with non-empty trim and whose other consumed fields are well-typed
(absent/null/boolean `requirement_met`, absent/number `confidence`,
absent/string `reasoning`). -/
def goodRecord (item : JVal) : Bool :=
  match item with
  | .obj m =>
    (match pyGet m "question" with
      | some (.str q) => !(pyStrip q).data.isEmpty
      | _ => false)
    && (match (pyGet m "requirement_met").getD .null with
      | .null => true
      | .bool _ => true
      | _ => false)
    && (match (pyGet m "confidence").getD (.num (3/10)) with
      | .num _ => true
      | _ => false)
    && (match (pyGet m "reasoning").getD (.str "LLM analysis provided.") with
      | .str _ => true
      | _ => false)
  | _ => false

/-- Spec-side definition (for the refinement conjunct of the order claim):
first-occurrence deduplication — "deduplicate by exact string equality,
keeping first occurrence, preserving the concatenation order" — folded from
an accumulator of already-kept strings. -/
def firstSeenDedupFrom (acc : List String) : List String → List String
  | [] => acc
  | q :: rest =>
    if q ∈ acc then firstSeenDedupFrom acc rest
    else firstSeenDedupFrom (acc ++ [q]) rest

/-- Every character a regex can consume satisfies `P` (the anchors and the
empty pattern consume nothing). -/
def REChars (P : Char → Prop) : RE → Prop
  | .eps => True
  | .cls f => ∀ c, f c = true → P c
  | .star f => ∀ c, f c = true → P c
  | .plus f => ∀ c, f c = true → P c
  | .seq a b => REChars P a ∧ REChars P b
  | .alt a b => REChars P a ∧ REChars P b
  | .bolML => True
  | .grp r => REChars P r

/-- The regex contains no capture group. -/
def NoGrp : RE → Prop
  | .eps => True
  | .cls _ => True
  | .star _ => True
  | .plus _ => True
  | .seq a b => NoGrp a ∧ NoGrp b
  | .alt a b => NoGrp a ∧ NoGrp b
  | .bolML => True
  | .grp _ => False

/-! ## Helper lemmas -/

theorem countP_pair_le {α : Type} (l : List α) (p q : α → Bool)
    (hpq : ∀ a, p a = true → q a = true → False) :
    l.countP p + l.countP q ≤ l.length := by
  induction l with
  | nil => simp
  | cons a t ih =>
    rw [List.countP_cons, List.countP_cons, List.length_cons]
    cases hp : p a with
    | false =>
      cases hq : q a with
      | false => simp [hp, hq] <;> omega
      | true => simp [hp, hq] <;> omega
    | true =>
      cases hq : q a with
      | false => simp [hp, hq] <;> omega
      | true => exact (hpq a hp hq).elim

theorem uploadTry_ok_shape (text : String) (llm : Except PyErr (Option (List JVal)))
    (r : AnalysisResponse) (h : uploadTry text llm = .ok r) :
    ∃ results, r = mkResponse results := by
  unfold uploadTry at h
  split at h
  · exact absurd h (by simp)
  · split at h
    · exact absurd h (by simp)
    · split at h
      · exact absurd h (by simp)
      · split at h
        · exact absurd h (by simp)
        · split at h
          · exact absurd h (by simp)
          · rename_i results heq
            exact ⟨results, (Except.ok.injEq _ _ |>.mp h).symm⟩

theorem collectQuestionTexts_ok (items : List JVal)
    (hall : ∀ i ∈ items, (skippableRecord i || goodRecord i) = true) :
    ∀ acc, ∃ qs, collectQuestionTexts items acc = .ok (acc ++ qs) ∧
      ((∃ i ∈ items, goodRecord i = true) → qs ≠ []) := by
  induction items with
  | nil =>
    intro acc
    exact ⟨[], by simp [collectQuestionTexts], by simp⟩
  | cons item rest ih =>
    have hrest : ∀ i ∈ rest, (skippableRecord i || goodRecord i) = true :=
      fun i hi => hall i (List.mem_cons_of_mem _ hi)
    have hitem := hall item (List.mem_cons_self _ _)
    intro acc
    match hi : item with
    | .obj m =>
      match hq : pyGet m "question" with
      | none =>
        obtain ⟨qs, h1, h2⟩ := ih hrest acc
        refine ⟨qs, ?_, ?_⟩
        · simpa [collectQuestionTexts, hq] using h1
        · intro ⟨i, hmem, hgood⟩
          rcases List.mem_cons.mp hmem with rfl | hmem'
          · simp [goodRecord, hq] at hgood
          · exact h2 ⟨i, hmem', hgood⟩
      | some (.str s) =>
        by_cases hs : s.data.isEmpty = true
        · obtain ⟨qs, h1, h2⟩ := ih hrest acc
          refine ⟨qs, ?_, ?_⟩
          · simpa [collectQuestionTexts, hq, pyTruthy, hs] using h1
          · intro ⟨i, hmem, hgood⟩
            rcases List.mem_cons.mp hmem with rfl | hmem'
            · have : s.data = [] := by
                cases hsd : s.data with
                | nil => rfl
                | cons c t => rw [hsd] at hs; simp at hs
              simp [goodRecord, hq, pyStrip, stripChars, this] at hgood
            · exact h2 ⟨i, hmem', hgood⟩
        · obtain ⟨qs, h1, h2⟩ := ih hrest (acc ++ [pyStrip s])
          refine ⟨pyStrip s :: qs, ?_, by simp⟩
          have hb : pyTruthy (.str s) = true := by
            simp only [pyTruthy]
            cases hv : s.data.isEmpty
            · rfl
            · exact absurd hv hs
          simp only [collectQuestionTexts, hq, hb, if_true]
          rw [h1]
          simp
      | some (.bool b) => simp [skippableRecord, goodRecord, hq] at hitem
      | some (.num n) => simp [skippableRecord, goodRecord, hq] at hitem
      | some .null => simp [skippableRecord, goodRecord, hq] at hitem
      | some (.arr l) => simp [skippableRecord, goodRecord, hq] at hitem
      | some (.obj o) => simp [skippableRecord, goodRecord, hq] at hitem
    | .null | .bool _ | .num _ | .str _ | .arr _ =>
      obtain ⟨qs, h1, h2⟩ := ih hrest acc
      refine ⟨qs, by simpa [collectQuestionTexts] using h1, ?_⟩
      intro ⟨i, hmem, hgood⟩
      rcases List.mem_cons.mp hmem with rfl | hmem'
      · simp [goodRecord] at hgood
      · exact h2 ⟨i, hmem', hgood⟩

theorem buildLLMResults_ok (items : List JVal)
    (hall : ∀ i ∈ items, (skippableRecord i || goodRecord i) = true) :
    ∀ acc, ∃ rs, buildLLMResults items acc = .ok (acc ++ rs) := by
  induction items with
  | nil => intro acc; exact ⟨[], by simp [buildLLMResults]⟩
  | cons item rest ih =>
    have hrest : ∀ i ∈ rest, (skippableRecord i || goodRecord i) = true :=
      fun i hi => hall i (List.mem_cons_of_mem _ hi)
    have hitem := hall item (List.mem_cons_self _ _)
    intro acc
    match hi : item with
    | .obj m =>
      match hq : pyGet m "question" with
      | none =>
        obtain ⟨rs, h1⟩ := ih hrest acc
        refine ⟨rs, ?_⟩
        have hrec : buildLLMRecord m = .ok none := by
          simp [buildLLMRecord, hq, pyStrip, stripChars]
        simp only [buildLLMResults, hrec]
        exact h1
      | some (.str s) =>
        by_cases hs : (pyStrip s).data.isEmpty = true
        · obtain ⟨rs, h1⟩ := ih hrest acc
          refine ⟨rs, ?_⟩
          have hrec : buildLLMRecord m = .ok none := by
            simp [buildLLMRecord, hq, hs]
          simp only [buildLLMResults, hrec]
          exact h1
        · -- the record is good: its remaining fields are well-typed
          have hgood : goodRecord (.obj m) = true := by
            simp only [skippableRecord, hq] at hitem
            rcases Bool.or_eq_true _ _ |>.mp hitem with h | h
            · exact absurd h hs
            · exact h
          simp only [goodRecord, hq, Bool.and_eq_true] at hgood
          obtain ⟨⟨⟨hq2, hrm⟩, hconf⟩, hreas⟩ := hgood
          obtain ⟨qc, hqc⟩ : ∃ qc, (pyGet m "confidence").getD (.num (3/10)) = .num qc := by
            cases hcv : (pyGet m "confidence").getD (.num (3/10)) with
            | num q => exact ⟨q, rfl⟩
            | _ => rw [hcv] at hconf; simp at hconf
          obtain ⟨rv, hrv⟩ : ∃ rv, pydanticOptBool ((pyGet m "requirement_met").getD .null) = .ok rv := by
            cases hrmv : (pyGet m "requirement_met").getD .null with
            | null => exact ⟨none, rfl⟩
            | bool b => exact ⟨some b, rfl⟩
            | _ => rw [hrmv] at hrm; simp at hrm
          obtain ⟨rstr, hrstr⟩ : ∃ rstr,
              (pyGet m "reasoning").getD (.str "LLM analysis provided.") = .str rstr := by
            cases hrsv : (pyGet m "reasoning").getD (.str "LLM analysis provided.") with
            | str t => exact ⟨t, rfl⟩
            | _ => rw [hrsv] at hreas; simp at hreas
          have hrec : buildLLMRecord m = .ok (some ⟨pyStrip s, rv, qc, rstr⟩) := by
            simp only [buildLLMRecord, hq, Option.getD_some]
            rw [if_neg (by simpa using hs)]
            rw [hqc, hrv, hrstr]
            rfl
          obtain ⟨rs, h1⟩ := ih hrest (acc ++ [⟨pyStrip s, rv, qc, rstr⟩])
          refine ⟨⟨pyStrip s, rv, qc, rstr⟩ :: rs, ?_⟩
          simp only [buildLLMResults, hrec]
          rw [h1]
          simp
      | some (.bool b) => simp [skippableRecord, goodRecord, hq] at hitem
      | some (.num n) => simp [skippableRecord, goodRecord, hq] at hitem
      | some .null => simp [skippableRecord, goodRecord, hq] at hitem
      | some (.arr l) => simp [skippableRecord, goodRecord, hq] at hitem
      | some (.obj o) => simp [skippableRecord, goodRecord, hq] at hitem
    | .null | .bool _ | .num _ | .str _ | .arr _ =>
      obtain ⟨rs, h1⟩ := ih hrest acc
      exact ⟨rs, by simpa [buildLLMResults] using h1⟩

/-! ## Lemmas about `str.strip()` -/

theorem dropWhile_head_false {α : Type} (p : α → Bool) (l : List α) :
    l.dropWhile p = [] ∨ ∃ c t, l.dropWhile p = c :: t ∧ p c = false := by
  induction l with
  | nil => exact Or.inl rfl
  | cons a t ih =>
    by_cases h : p a = true
    · simpa [List.dropWhile_cons, h] using ih
    · exact Or.inr ⟨a, t, by simp [List.dropWhile_cons, h],
        by simpa using h⟩

theorem dropWhile_eq_self_of_head {α : Type} (p : α → Bool) (c : α) (t : List α)
    (hc : p c = false) : (c :: t).dropWhile p = c :: t := by
  simp [List.dropWhile_cons, hc]

theorem dropWhile_append_decomp {α : Type} (p : α → Bool) (l : List α) :
    ∃ t, l = t ++ l.dropWhile p := by
  induction l with
  | nil => exact ⟨[], rfl⟩
  | cons a u ih =>
    by_cases h : p a = true
    · obtain ⟨t, ht⟩ := ih
      exact ⟨a :: t, by simp [List.dropWhile_cons, h]; exact ht⟩
    · exact ⟨[], by simp [List.dropWhile_cons, h]⟩

theorem mem_of_mem_dropWhile {α : Type} (p : α → Bool) (l : List α) (x : α)
    (h : x ∈ l.dropWhile p) : x ∈ l := by
  obtain ⟨t, ht⟩ := dropWhile_append_decomp p l
  rw [ht]
  exact List.mem_append_right t h

theorem stripChars_idem (l : List Char) :
    stripChars (stripChars l) = stripChars l := by
  unfold stripChars
  rcases dropWhile_head_false isPySpace ((l.dropWhile isPySpace).reverse)
    with hb | ⟨c, t, hb, hc⟩
  · rw [hb]
    simp
  · rw [hb]
    -- the stripped list is (c :: t).reverse; its first element is the last
    -- of the forward list, its last element is c, and both fail isPySpace
    have hlast : ∀ x ts, (c :: t).reverse = x :: ts → isPySpace x = false := by
      intro x ts hx
      -- x is the head of (c :: t).reverse; c :: t is a suffix of
      -- (l.dropWhile isPySpace).reverse, so x is the head of
      -- l.dropWhile isPySpace (when that is non-empty), which fails isPySpace
      obtain ⟨t2, ht2⟩ := dropWhile_append_decomp isPySpace
        ((l.dropWhile isPySpace).reverse)
      rw [hb] at ht2
      have hx2 : (l.dropWhile isPySpace).head? = some x := by
        have : l.dropWhile isPySpace = (c :: t).reverse ++ t2.reverse := by
          have := congrArg List.reverse ht2
          simpa using this
        rw [this, hx]
        simp
      rcases dropWhile_head_false isPySpace l with hd | ⟨d, td, hd, hdp⟩
      · rw [hd] at hx2; cases hx2
      · rw [hd] at hx2
        simp only [List.head?_cons, Option.some.injEq] at hx2
        rw [← hx2]
        exact hdp
    cases hrev : (c :: t).reverse with
    | nil => exact absurd (congrArg List.length hrev) (by simp)
    | cons x ts =>
      rw [dropWhile_eq_self_of_head isPySpace x ts (hlast x ts hrev)]
      rw [← hrev]
      simp only [List.reverse_reverse]
      rw [dropWhile_eq_self_of_head isPySpace c t hc]

theorem pyStrip_idem (s : String) : pyStrip (pyStrip s) = pyStrip s := by
  show (⟨stripChars (stripChars s.data)⟩ : String) = ⟨stripChars s.data⟩
  rw [stripChars_idem]

theorem dropWhile_append_qm (u : List Char) :
    (u ++ ['?']).dropWhile isPySpace = u.dropWhile isPySpace ++ ['?'] := by
  induction u with
  | nil => decide
  | cons a t ih =>
    by_cases h : isPySpace a = true
    · simp only [List.cons_append, List.dropWhile_cons, h, if_true]
      exact ih
    · simp [List.dropWhile_cons, h]

theorem stripChars_qm (u : List Char) :
    stripChars (u ++ ['?']) = u.dropWhile isPySpace ++ ['?'] := by
  unfold stripChars
  rw [dropWhile_append_qm]
  have h1 : (u.dropWhile isPySpace ++ ['?']).reverse =
      '?' :: (u.dropWhile isPySpace).reverse := by simp
  rw [h1, dropWhile_eq_self_of_head isPySpace '?' _ (by decide)]
  simp

/-! ## Lemmas about the clean-and-deduplicate loop -/

theorem cleanLoop_eq (raw : List String) :
    ∀ acc, cleanLoop acc raw =
      firstSeenDedupFrom acc ((raw.map pyStrip).filter
        (fun q => decide (10 < q.length))) := by
  induction raw with
  | nil => intro acc; rfl
  | cons q rest ih =>
    intro acc
    by_cases h10 : 10 < (pyStrip q).length
    · by_cases hmem : pyStrip q ∈ acc
      · have hcond : ¬(10 < (pyStrip q).length ∧ pyStrip q ∉ acc) :=
          fun ⟨_, hn⟩ => hn hmem
        simp only [cleanLoop, if_neg hcond, List.map_cons, List.filter_cons,
          decide_eq_true h10, if_true, firstSeenDedupFrom, if_pos hmem]
        exact ih acc
      · have hcond : 10 < (pyStrip q).length ∧ pyStrip q ∉ acc := ⟨h10, hmem⟩
        simp only [cleanLoop, if_pos hcond, List.map_cons, List.filter_cons,
          decide_eq_true h10, if_true, firstSeenDedupFrom, if_neg hmem]
        exact ih (acc ++ [pyStrip q])
    · have hcond : ¬(10 < (pyStrip q).length ∧ pyStrip q ∉ acc) :=
        fun ⟨hy, _⟩ => h10 hy
      simp only [cleanLoop, if_neg hcond, List.map_cons, List.filter_cons]
      rw [if_neg (by simpa using h10)]
      exact ih acc

theorem firstSeenDedupFrom_mem (l : List String) :
    ∀ acc x, x ∈ firstSeenDedupFrom acc l → x ∈ acc ∨ x ∈ l := by
  induction l with
  | nil => intro acc x h; exact Or.inl h
  | cons q rest ih =>
    intro acc x h
    simp only [firstSeenDedupFrom] at h
    split at h
    · rcases ih acc x h with h' | h'
      · exact Or.inl h'
      · exact Or.inr (List.mem_cons_of_mem _ h')
    · rcases ih (acc ++ [q]) x h with h' | h'
      · rcases List.mem_append.mp h' with h'' | h''
        · exact Or.inl h''
        · simp only [List.mem_singleton] at h''
          exact Or.inr (h'' ▸ List.mem_cons_self _ _)
      · exact Or.inr (List.mem_cons_of_mem _ h')

theorem firstSeenDedupFrom_nodup (l : List String) :
    ∀ acc, acc.Nodup → (firstSeenDedupFrom acc l).Nodup := by
  induction l with
  | nil => intro acc h; exact h
  | cons q rest ih =>
    intro acc h
    simp only [firstSeenDedupFrom]
    split
    · exact ih acc h
    · refine ih (acc ++ [q]) (List.Nodup.append h (List.nodup_singleton q) ?_)
      intro x hx hx'
      simp only [List.mem_singleton] at hx'
      rename_i hqacc
      exact hqacc (hx' ▸ hx)

theorem mem_extract_imp (s : String) (q : String)
    (h : q ∈ extract_questions_from_text s) :
    ∃ y ∈ rawQuestions s.data, q = pyStrip y ∧ 10 < q.length := by
  rw [extract_questions_from_text, cleanLoop_eq] at h
  rcases firstSeenDedupFrom_mem _ _ _ h with h2 | h2
  · cases h2
  · obtain ⟨hmem, hlen⟩ := List.mem_filter.mp h2
    obtain ⟨y, hy, hq⟩ := List.mem_map.mp hmem
    exact ⟨y, hy, hq.symm, by simpa using hlen⟩

/-! ## Lemmas about the regex engine -/

theorem length_takeWhile_le' {α : Type} (p : α → Bool) (l : List α) :
    (l.takeWhile p).length ≤ l.length := by
  induction l with
  | nil => simp
  | cons a t ih =>
    rw [List.takeWhile_cons]
    split
    · simpa using ih
    · simp

theorem takeWhile_get? {α : Type} (p : α → Bool) :
    ∀ (l : List α) (j : Nat), j < (l.takeWhile p).length →
      ∃ c, l.get? j = some c ∧ p c = true := by
  intro l
  induction l with
  | nil => intro j h; simp at h
  | cons a t ih =>
    intro j h
    rw [List.takeWhile_cons] at h
    by_cases hpa : p a = true
    · rw [if_pos hpa] at h
      cases j with
      | zero => exact ⟨a, rfl, hpa⟩
      | succ n =>
        simp only [List.length_cons, Nat.succ_lt_succ_iff] at h
        obtain ⟨c, hc, hpc⟩ := ih n h
        exact ⟨c, by simpa using hc, hpc⟩
    · rw [if_neg hpa] at h
      simp at h

theorem runLen_le (f : Char → Bool) (s : List Char) (pos : Nat) :
    runLen f s pos ≤ s.length - pos := by
  unfold runLen
  calc ((s.drop pos).takeWhile f).length ≤ (s.drop pos).length :=
        length_takeWhile_le' f _
    _ = s.length - pos := by simp

theorem runLen_chars (f : Char → Bool) (s : List Char) (pos : Nat) :
    ∀ j, j < runLen f s pos → ∃ c, s.get? (pos + j) = some c ∧ f c = true := by
  intro j hj
  obtain ⟨c, hc, hfc⟩ := takeWhile_get? f (s.drop pos) j hj
  refine ⟨c, ?_, hfc⟩
  rw [← List.get?_drop]
  exact hc

theorem runRE_bounds (r : RE) (s : List Char) :
    ∀ pos e g, pos ≤ s.length → (e, g) ∈ runRE r s pos →
      pos ≤ e ∧ e ≤ s.length := by
  induction r with
  | eps =>
    intro pos e g hpos h
    simp only [runRE, List.mem_singleton, Prod.mk.injEq] at h
    obtain ⟨rfl, -⟩ := h
    exact ⟨Nat.le_refl _, hpos⟩
  | cls f =>
    intro pos e g hpos h
    cases hg : s.get? pos with
    | none => simp only [runRE, hg, List.not_mem_nil] at h
    | some c =>
      simp only [runRE, hg] at h
      split at h
      · simp only [List.mem_singleton, Prod.mk.injEq] at h
        obtain ⟨rfl, -⟩ := h
        obtain ⟨hlt, -⟩ := List.get?_eq_some.mp hg
        omega
      · simp at h
  | star f =>
    intro pos e g hpos h
    simp only [runRE, List.mem_map, List.mem_range] at h
    obtain ⟨i, hi, heq⟩ := h
    rw [Prod.mk.injEq] at heq
    obtain ⟨he, -⟩ := heq
    have hk := runLen_le f s pos
    omega
  | plus f =>
    intro pos e g hpos h
    simp only [runRE, List.mem_map, List.mem_range] at h
    obtain ⟨i, hi, heq⟩ := h
    rw [Prod.mk.injEq] at heq
    obtain ⟨he, -⟩ := heq
    have hk := runLen_le f s pos
    omega
  | seq a b iha ihb =>
    intro pos e g hpos h
    simp only [runRE, List.mem_flatMap, List.mem_map] at h
    obtain ⟨⟨e1, g1⟩, h1, ⟨e2, g2⟩, h2, heq⟩ := h
    obtain ⟨h1a, h1b⟩ := iha pos e1 g1 hpos h1
    obtain ⟨h2a, h2b⟩ := ihb e1 e2 g2 h1b h2
    rw [Prod.mk.injEq] at heq
    obtain ⟨he, -⟩ := heq
    omega
  | alt a b iha ihb =>
    intro pos e g hpos h
    simp only [runRE, List.mem_append] at h
    rcases h with h | h
    · exact iha pos e g hpos h
    · exact ihb pos e g hpos h
  | bolML =>
    intro pos e g hpos h
    simp only [runRE] at h
    split at h
    · simp only [List.mem_singleton, Prod.mk.injEq] at h
      obtain ⟨rfl, -⟩ := h
      exact ⟨Nat.le_refl _, hpos⟩
    · cases h
  | grp r ih =>
    intro pos e g hpos h
    simp only [runRE, List.mem_map] at h
    obtain ⟨⟨e1, g1⟩, h1, heq⟩ := h
    rw [Prod.mk.injEq] at heq
    obtain ⟨he, -⟩ := heq
    have := ih pos e1 g1 hpos h1
    omega

theorem runRE_chars (P : Char → Prop) (r : RE) (s : List Char) :
    REChars P r → ∀ pos e g, (e, g) ∈ runRE r s pos →
      ∀ i, pos ≤ i → i < e → ∃ c, s.get? i = some c ∧ P c := by
  induction r with
  | eps =>
    intro hr pos e g h i hi1 hi2
    simp only [runRE, List.mem_singleton, Prod.mk.injEq] at h
    obtain ⟨rfl, -⟩ := h
    omega
  | cls f =>
    intro hr pos e g h i hi1 hi2
    cases hg : s.get? pos with
    | none => simp only [runRE, hg, List.not_mem_nil] at h
    | some c =>
      simp only [runRE, hg] at h
      split at h
      · rename_i hfc
        simp only [List.mem_singleton, Prod.mk.injEq] at h
        obtain ⟨rfl, -⟩ := h
        have hieq : i = pos := by omega
        exact ⟨c, hieq ▸ hg, hr c hfc⟩
      · simp at h
  | star f =>
    intro hr pos e g h i hi1 hi2
    simp only [runRE, List.mem_map, List.mem_range] at h
    obtain ⟨j, hj, heq⟩ := h
    rw [Prod.mk.injEq] at heq
    obtain ⟨he, -⟩ := heq
    have hjlt : i - pos < runLen f s pos := by omega
    obtain ⟨c, hc, hfc⟩ := runLen_chars f s pos (i - pos) hjlt
    have : pos + (i - pos) = i := by omega
    rw [this] at hc
    exact ⟨c, hc, hr c hfc⟩
  | plus f =>
    intro hr pos e g h i hi1 hi2
    simp only [runRE, List.mem_map, List.mem_range] at h
    obtain ⟨j, hj, heq⟩ := h
    rw [Prod.mk.injEq] at heq
    obtain ⟨he, -⟩ := heq
    have hjlt : i - pos < runLen f s pos := by omega
    obtain ⟨c, hc, hfc⟩ := runLen_chars f s pos (i - pos) hjlt
    have : pos + (i - pos) = i := by omega
    rw [this] at hc
    exact ⟨c, hc, hr c hfc⟩
  | seq a b iha ihb =>
    intro hr pos e g h i hi1 hi2
    obtain ⟨hra, hrb⟩ := hr
    simp only [runRE, List.mem_flatMap, List.mem_map] at h
    obtain ⟨⟨e1, g1⟩, h1, ⟨e2, g2⟩, h2, heq⟩ := h
    rw [Prod.mk.injEq] at heq
    obtain ⟨he, -⟩ := heq
    by_cases hie : i < e1
    · exact iha hra pos e1 g1 h1 i hi1 hie
    · refine ihb hrb e1 e2 g2 h2 i (by omega) (by omega)
  | alt a b iha ihb =>
    intro hr pos e g h i hi1 hi2
    obtain ⟨hra, hrb⟩ := hr
    simp only [runRE, List.mem_append] at h
    rcases h with h | h
    · exact iha hra pos e g h i hi1 hi2
    · exact ihb hrb pos e g h i hi1 hi2
  | bolML =>
    intro hr pos e g h i hi1 hi2
    simp only [runRE] at h
    split at h
    · simp only [List.mem_singleton, Prod.mk.injEq] at h
      obtain ⟨rfl, -⟩ := h
      omega
    · cases h
  | grp r ih =>
    intro hr pos e g h i hi1 hi2
    simp only [runRE, List.mem_map] at h
    obtain ⟨⟨e1, g1⟩, h1, heq⟩ := h
    rw [Prod.mk.injEq] at heq
    obtain ⟨he, -⟩ := heq
    exact ih hr pos e1 g1 h1 i hi1 (by omega)

theorem runRE_nogrp (r : RE) (s : List Char) :
    NoGrp r → ∀ pos e g, (e, g) ∈ runRE r s pos → g = none := by
  induction r with
  | eps =>
    intro hr pos e g h
    simp only [runRE, List.mem_singleton, Prod.mk.injEq] at h
    exact h.2
  | cls f =>
    intro hr pos e g h
    cases hg : s.get? pos with
    | none => simp only [runRE, hg, List.not_mem_nil] at h
    | some c =>
      simp only [runRE, hg] at h
      split at h
      · simp only [List.mem_singleton, Prod.mk.injEq] at h
        exact h.2
      · simp at h
  | star f =>
    intro hr pos e g h
    simp only [runRE, List.mem_map, List.mem_range] at h
    obtain ⟨j, hj, heq⟩ := h
    rw [Prod.mk.injEq] at heq
    exact heq.2.symm
  | plus f =>
    intro hr pos e g h
    simp only [runRE, List.mem_map, List.mem_range] at h
    obtain ⟨j, hj, heq⟩ := h
    rw [Prod.mk.injEq] at heq
    exact heq.2.symm
  | seq a b iha ihb =>
    intro hr pos e g h
    obtain ⟨hra, hrb⟩ := hr
    simp only [runRE, List.mem_flatMap, List.mem_map] at h
    obtain ⟨⟨e1, g1⟩, h1, ⟨e2, g2⟩, h2, heq⟩ := h
    have hg1 : g1 = none := iha hra pos e1 g1 h1
    have hg2 : g2 = none := ihb hrb e1 e2 g2 h2
    rw [Prod.mk.injEq] at heq
    rw [← heq.2, hg1, hg2]
    rfl
  | alt a b iha ihb =>
    intro hr pos e g h
    obtain ⟨hra, hrb⟩ := hr
    simp only [runRE, List.mem_append] at h
    rcases h with h | h
    · exact iha hra pos e g h
    · exact ihb hrb pos e g h
  | bolML =>
    intro hr pos e g h
    simp only [runRE] at h
    split at h
    · simp only [List.mem_singleton, Prod.mk.injEq] at h
      exact h.2
    · cases h
  | grp r ih => intro hr; exact hr.elim

theorem grp_span (body : RE) (s : List Char) (pos e a b : Nat)
    (h : (e, some (a, b)) ∈ runRE (.grp body) s pos) :
    b = e ∧ a = pos ∧ ∃ g, (e, g) ∈ runRE body s a := by
  simp only [runRE, List.mem_map] at h
  obtain ⟨⟨e1, g1⟩, h1, heq⟩ := h
  rw [Prod.mk.injEq] at heq
  obtain ⟨he, hg⟩ := heq
  injection hg with hg2
  rw [Prod.mk.injEq] at hg2
  obtain ⟨ha, hb⟩ := hg2
  subst he
  subst ha
  subst hb
  exact ⟨rfl, rfl, g1, h1⟩

theorem seq_grp_span (pre body : RE) (s : List Char) (pos e a b : Nat)
    (hpre : NoGrp pre) (hpos : pos ≤ s.length)
    (h : (e, some (a, b)) ∈ runRE (.seq pre (.grp body)) s pos) :
    b = e ∧ a ≤ s.length ∧ ∃ g, (e, g) ∈ runRE body s a := by
  simp only [runRE, List.mem_flatMap, List.mem_map] at h
  obtain ⟨⟨e1, g1⟩, h1, ⟨e2, g2⟩, h2, heq⟩ := h
  have hg1 : g1 = none := runRE_nogrp pre s hpre pos e1 g1 h1
  subst hg1
  simp only [runRE, List.mem_map] at h2
  obtain ⟨⟨e3, g3⟩, h3, heq2⟩ := h2
  rw [Prod.mk.injEq] at heq2
  obtain ⟨he3, hg3⟩ := heq2
  rw [Prod.mk.injEq] at heq
  obtain ⟨he2, hcomb⟩ := heq
  rw [← hg3] at hcomb
  -- hcomb : Option.orElse none (fun _ => some (e1, e3)) = some (a, b)
  simp only [Option.orElse] at hcomb
  injection hcomb with hcomb2
  rw [Prod.mk.injEq] at hcomb2
  obtain ⟨ha, hb⟩ := hcomb2
  obtain ⟨-, h1b⟩ := runRE_bounds pre s pos e1 none hpos h1
  subst ha
  refine ⟨by omega, h1b, g3, ?_⟩
  have : e3 = e := by omega
  rw [← this]
  exact h3

theorem reFindallAux_spans (r : RE) (s : List Char) :
    ∀ fuel pos a b, (a, b) ∈ reFindallAux r s fuel pos →
      ∃ p e, p ≤ s.length ∧ (e, some (a, b)) ∈ runRE r s p := by
  intro fuel
  induction fuel with
  | zero => intro pos a b h; simp [reFindallAux] at h
  | succ n ih =>
    intro pos a b h
    rw [reFindallAux] at h
    split at h
    · cases h
    · rename_i hnlt
      split at h
      · rename_i e g tail heq
        rcases List.mem_cons.mp h with hg | h'
        · refine ⟨pos, e, by omega, ?_⟩
          rw [heq, ← hg]
          exact List.mem_cons_self _ _
        · exact ih _ a b h'
      · exact ih _ a b h

theorem body_shape (X : RE) (s : List Char)
    (hX : REChars (fun c => ¬c = '?') X) (a : Nat) (ha : a ≤ s.length) :
    ∀ e g, (e, g) ∈ runRE (.seq X (.cls isQm)) s a →
      ∃ m, a ≤ m ∧ s.get? m = some '?' ∧ e = m + 1 ∧
        ∀ i, a ≤ i → i < m → ∃ c, s.get? i = some c ∧ ¬c = '?' := by
  intro e g h
  simp only [runRE, List.mem_flatMap, List.mem_map] at h
  obtain ⟨⟨m, g1⟩, h1, ⟨e2, g2⟩, h2, heq⟩ := h
  obtain ⟨ham, -⟩ := runRE_bounds X s a m g1 ha h1
  rw [Prod.mk.injEq] at heq
  obtain ⟨he2, -⟩ := heq
  cases hg : s.get? m with
  | none => simp only [runRE, hg, List.not_mem_nil] at h2
  | some c =>
    simp only [runRE, hg] at h2
    split at h2
    · rename_i hqc
      simp only [List.mem_singleton, Prod.mk.injEq] at h2
      obtain ⟨h2e, -⟩ := h2
      have hc : c = '?' := by simpa [isQm] using hqc
      subst hc
      refine ⟨m, ham, hg, by omega, ?_⟩
      intro i hi him
      exact runRE_chars _ X s hX a m g1 h1 i hi him
    · simp at h2

theorem slice_shape (s : List Char) (a m : Nat) (ham : a ≤ m)
    (hm : s.get? m = some '?')
    (hinner : ∀ i, a ≤ i → i < m → ∃ c, s.get? i = some c ∧ ¬c = '?') :
    ∃ u, (sliceStr s a (m + 1)).data = u ++ ['?'] ∧ '?' ∉ u := by
  refine ⟨(s.drop a).take (m - a), ?_, ?_⟩
  · show (s.drop a).take (m + 1 - a) = _
    have h1 : m + 1 - a = (m - a) + 1 := by omega
    rw [h1, List.take_succ]
    have h2 : (s.drop a).get? (m - a) = some '?' := by
      rw [List.get?_drop]
      have : a + (m - a) = m := by omega
      rw [this]
      exact hm
    rw [List.get?_eq_getElem?] at h2
    rw [h2]
    rfl
  · intro hmem
    obtain ⟨j, hj⟩ := List.mem_iff_get?.mp hmem
    have hjlt : j < ((s.drop a).take (m - a)).length := by
      obtain ⟨hl, -⟩ := List.get?_eq_some.mp hj
      exact hl
    have hjm : j < m - a := lt_of_lt_of_le hjlt (by
      rw [List.length_take]
      exact min_le_left _ _)
    rw [List.get?_take hjm, List.get?_drop] at hj
    obtain ⟨c, hc, hcq⟩ := hinner (a + j) (by omega) (by omega)
    rw [hj] at hc
    injection hc with hc2
    exact hcq hc2.symm

theorem class_ne_qm (f : Char → Bool) (hf : f '?' = false) :
    ∀ c, f c = true → ¬c = '?' := by
  intro c h hc
  subst hc
  rw [h] at hf
  cases hf

theorem litCI_ne_qm (w : String)
    (hw : ∀ c ∈ w.data, ('?'.toLower == c.toLower) = false) :
    REChars (fun c => ¬c = '?') (litCI w) := by
  unfold litCI
  revert hw
  generalize w.data = l
  induction l with
  | nil => intro h; exact trivial
  | cons c t ih =>
    intro h
    simp only [List.foldr_cons]
    refine ⟨?_, ih (fun c' hc' => h c' (List.mem_cons_of_mem _ hc'))⟩
    intro x hx hxq
    subst hxq
    have hc := h c (List.mem_cons_self _ _)
    have hx' : ('?'.toLower == c.toLower) = true := hx
    rw [hx'] at hc
    cases hc

theorem auditLeads_qm :
    ∀ w ∈ auditLeads, ∀ c ∈ w.data, ('?'.toLower == c.toLower) = false := by
  decide

theorem findall_shape (pat X : RE) (s : List Char)
    (hX : REChars (fun c => ¬c = '?') X)
    (hspan : ∀ p e a b, p ≤ s.length → (e, some (a, b)) ∈ runRE pat s p →
      b = e ∧ a ≤ s.length ∧ ∃ g, (e, g) ∈ runRE (.seq X (.cls isQm)) s a) :
    ∀ y ∈ reFindall pat s, ∃ u, y.data = u ++ ['?'] ∧ '?' ∉ u := by
  intro y hy
  simp only [reFindall, List.mem_map] at hy
  obtain ⟨⟨a, b⟩, hab, hy2⟩ := hy
  obtain ⟨p, e, hp, hmem⟩ := reFindallAux_spans pat s _ 0 a b hab
  obtain ⟨hbe, haa, g, hbody⟩ := hspan p e a b hp hmem
  obtain ⟨m, ham, hqm, hem, hinner⟩ := body_shape X s hX a haa e g hbody
  have hb : b = m + 1 := by omega
  rw [← hy2, hb]
  exact slice_shape s a m ham hqm hinner

theorem rawQuestions_shape (s : List Char) (y : String)
    (hy : y ∈ rawQuestions s) : ∃ u, y.data = u ++ ['?'] ∧ '?' ∉ u := by
  unfold rawQuestions at hy
  rcases List.mem_append.mp hy with hy1 | hy3
  · rcases List.mem_append.mp hy1 with hyA | hyB
    · refine findall_shape numberedRE
        (.seq (.plus isDig) (.seq (.cls dotOrParen)
          (.seq (.star isPySpace) (.star notNlQ)))) s
        ⟨class_ne_qm isDig (by decide),
         class_ne_qm dotOrParen (by decide),
         class_ne_qm isPySpace (by decide),
         class_ne_qm notNlQ (by decide)⟩
        (fun p e a b hp hm =>
          seq_grp_span numberedPre body1 s p e a b ⟨⟨trivial, trivial⟩, trivial⟩ hp hm)
        y hyA
    · refine findall_shape sentenceRE (.seq (.cls upperAZ) (.star notQ)) s
        ⟨class_ne_qm upperAZ (by decide), class_ne_qm notQ (by decide)⟩
        (fun p e a b hp hm => ?_) y hyB
      obtain ⟨hbe, hap, g, hg⟩ := grp_span body2 s p e a b hm
      exact ⟨hbe, by omega, g, hg⟩
  · obtain ⟨w, hw, hyw⟩ := List.mem_flatMap.mp hy3
    refine findall_shape (auditRE w) (.seq (litCI w) (.star notQ)) s
      ⟨litCI_ne_qm w (auditLeads_qm w hw), class_ne_qm notQ (by decide)⟩
      (fun p e a b hp hm => ?_) y hyw
    obtain ⟨hbe, hap, g, hg⟩ := grp_span (auditBody w) s p e a b hm
    exact ⟨hbe, by omega, g, hg⟩

/-! ## Claim theorems -/

/-- C1 (code bug): the upload endpoint is claimed to report empty extracted
text and an empty final question list as 400 input errors and never to return
200 with an empty question list.  In `src/app.py` the `HTTPException(400)`s
are raised *inside* the `try`-block whose `except Exception` re-raises
everything as a 500 — so both conditions surface as 500 — and a record whose
`question` is a whitespace-only string passes the first loop's emptiness check
but is skipped by the second, producing a 200 response with an empty question
list. -/
theorem claim_C1 :
    upload_pdf "doc.pdf" "" (.ok none) =
      .serverError (.httpExc 400 "Could not extract text from PDF")
  ∧ upload_pdf "doc.pdf" "Attachment text with no questions." (.ok none) =
      .serverError (.httpExc 400
        "No questions found in PDF. Please ensure the document contains audit questions.")
  ∧ upload_pdf "doc.pdf" "Some text." (.ok (some [.obj [("question", .str " ")]])) =
      .success ⟨[], 0, 0, 0⟩ :=
  ⟨rfl, by decide, rfl⟩

/-- C2 (code bug): the adapter is claimed to convert every backend failure —
including an empty `candidates` list — to `None` without propagating an
exception.  The `except` clause catches only
`URLError`/`HTTPError`/`KeyError`/`JSONDecodeError`; on the HTTP-200 body
`{"candidates": []}` the subscript `response_json["candidates"][0]` raises an
uncaught `IndexError`, which escapes `llm_extract_and_analyze` (network errors
do produce `None`, second conjunct). -/
theorem claim_C2 :
    llm_extract_and_analyze true (.ok "\x7b\"candidates\": []\x7d")
        (.ok "\x7b\"candidates\": []\x7d") = .error .indexError
  ∧ llm_extract_and_analyze true .urlError .urlError = .ok none :=
  ⟨rfl, rfl⟩

/-- C3 (spec-modelled): the record-building step of the normalizing
orchestrator builds, for every dict record with a question string of non-empty
trim, a record whose `requirement_met` comes from `_derive_requirement_met`
(field first, answer as fallback), whose `confidence` comes from
`_parse_confidence` with default 0.3, and whose `answer`/`evidence` are
carried through trimmed with empty becoming absent; on the Scenario D record
`{question: "Is access logged?", answer: "Yes", requirement_met: null,
confidence: 0.8, reasoning: "stated"}` this yields `requirement_met = true`
(derived from the answer) and `confidence = 0.8`. -/
theorem claim_C3 :
    (∀ (m : List (String × JVal)) (q : String),
      pyGet m "question" = some (.str q) → (pyStrip q).data.isEmpty = false →
      ∃ r, build_record (.obj m) = some r ∧
        r.question = pyStrip q ∧
        r.requirement_met = _derive_requirement_met ((pyGet m "answer").getD .null)
          ((pyGet m "requirement_met").getD .null) ∧
        r.confidence = _parse_confidence ((pyGet m "confidence").getD .null) (3/10) ∧
        r.answer = optTrimmed (pyGet m "answer") ∧
        r.evidence = optTrimmed (pyGet m "evidence"))
  ∧ build_record (.obj [("question", .str "Is access logged?"),
      ("answer", .str "Yes"), ("requirement_met", .null),
      ("confidence", .num (8/10)), ("reasoning", .str "stated")]) =
      some ⟨"Is access logged?", some true, 8/10, "stated", some "Yes", none⟩ := by
  constructor
  · intro m q hq hne
    refine ⟨⟨pyStrip q,
      _derive_requirement_met ((pyGet m "answer").getD .null)
        ((pyGet m "requirement_met").getD .null),
      _parse_confidence ((pyGet m "confidence").getD .null) (3/10),
      (match pyGet m "reasoning" with
        | some (.str r) => if r.data.isEmpty then "LLM analysis provided." else r
        | _ => "LLM analysis provided."),
      optTrimmed (pyGet m "answer"), optTrimmed (pyGet m "evidence")⟩,
      ?_, rfl, rfl, rfl, rfl, rfl⟩
    simp only [build_record, hq, hne]
    rfl
  · rfl

/-- C3 witness: the general record-building property instantiated at the
Scenario D record. -/
theorem claim_C3_witness :
    ∃ r, build_record (.obj [("question", .str "Is access logged?"),
        ("answer", .str "Yes"), ("requirement_met", .null),
        ("confidence", .num (8/10)), ("reasoning", .str "stated")]) = some r ∧
      r.question = pyStrip "Is access logged?" ∧
      r.requirement_met = _derive_requirement_met (.str "Yes") .null ∧
      r.confidence = _parse_confidence (.num (8/10)) (3/10) ∧
      r.answer = optTrimmed (some (.str "Yes")) ∧
      r.evidence = optTrimmed none :=
  claim_C3.1 [("question", .str "Is access logged?"), ("answer", .str "Yes"),
    ("requirement_met", .null), ("confidence", .num (8/10)),
    ("reasoning", .str "stated")] "Is access logged?" rfl rfl

/-- C4 counterexample: a single malformed record — here a dict whose
`question` field is the number 5 — makes `question_text.strip()` raise an
`AttributeError`, which the endpoint converts to a 500 error: the request
fails, contradicting the claim that no malformed record can fail the
request. -/
theorem claim_C4_counterexample :
    upload_pdf "a.pdf" "some text" (.ok (some [.obj [("question", .num 5)]])) =
      .serverError .attributeError := rfl

/-- C4 (amended): the orchestrator silently skips every record that is not a
dict, lacks a `question` key, or whose question is a string with empty trim;
provided every record is of these skippable kinds or is well-formed (string
question with non-empty trim and well-typed remaining fields) and at least one
is well-formed, the request succeeds — but a record whose `question` field is
a truthy non-string (or an explicit `null`) fails the whole request with a
500, so the claim's "whatever the type or value of its fields" is false. -/
theorem claim_C4 (filename text : String) (items : List JVal)
    (hpdf : pyEndsWith filename ".pdf" = true)
    (htext : (pyStrip text).data.isEmpty = false)
    (hall : ∀ i ∈ items, (skippableRecord i || goodRecord i) = true)
    (hsome : ∃ i ∈ items, goodRecord i = true) :
    ∃ r, upload_pdf filename text (.ok (some items)) = .success r := by
  obtain ⟨qs, hqs, hne⟩ := collectQuestionTexts_ok items hall []
  obtain ⟨rs, hrs⟩ := buildLLMResults_ok items hall []
  refine ⟨mkResponse rs, ?_⟩
  have hqs' : collectQuestionTexts items [] = .ok qs := by simpa using hqs
  have hrs' : buildLLMResults items [] = .ok rs := by simpa using hrs
  have hqsne : qs.isEmpty = false := by
    cases hq : qs with
    | nil => exact absurd rfl (hq ▸ hne hsome)
    | cons a t => rfl
  simp only [upload_pdf, hpdf, Bool.not_true, if_false, uploadTry, htext,
    Bool.false_eq_true, hqs', hqsne, hrs']

/-- C4 witness: a list mixing one well-formed record with a non-dict record, a
dict lacking `question`, and a whitespace-question record is processed to a
successful response. -/
theorem claim_C4_witness :
    ∃ r, upload_pdf "a.pdf" "doc text"
      (.ok (some [.obj [("question", .str "Is access logged properly?"),
                        ("confidence", .num (9/10))],
                  .num 7, .obj [("note", .str "x")],
                  .obj [("question", .str "  ")]])) = .success r :=
  claim_C4 "a.pdf" "doc text"
    [.obj [("question", .str "Is access logged properly?"),
           ("confidence", .num (9/10))],
     .num 7, .obj [("note", .str "x")], .obj [("question", .str "  ")]]
    rfl rfl (by decide) (by decide)

/-- C5: `extract_questions_from_text` returns only trimmed strings of length
strictly greater than 10, each appearing exactly once; the list equals the
first-occurrence deduplication (spec-side `firstSeenDedupFrom`) of the
trimmed, length-filtered concatenation of family 1, family 2 and the audit
families in order; and both `""` and `"no question here"` yield `[]`. -/
theorem claim_C5 :
    (∀ (s : String) (q : String), q ∈ extract_questions_from_text s →
        pyStrip q = q ∧ 10 < q.length)
  ∧ (∀ s : String, (extract_questions_from_text s).Nodup)
  ∧ (∀ s : String, extract_questions_from_text s =
      firstSeenDedupFrom [] (((rawQuestions s.data).map pyStrip).filter
        (fun q => decide (10 < q.length))))
  ∧ extract_questions_from_text "" = []
  ∧ extract_questions_from_text "no question here" = [] := by
  refine ⟨?_, ?_, ?_, by decide, by decide⟩
  · intro s q h
    obtain ⟨y, hy, rfl, hlen⟩ := mem_extract_imp s q h
    exact ⟨pyStrip_idem y, hlen⟩
  · intro s
    rw [extract_questions_from_text, cleanLoop_eq]
    exact firstSeenDedupFrom_nodup _ [] List.nodup_nil
  · intro s
    exact cleanLoop_eq _ []

/-- C5 witness: the trimmed-and-long property at a concrete extraction. -/
theorem claim_C5_witness :
    pyStrip "Does it meet the bar?" = "Does it meet the bar?" ∧
    10 < "Does it meet the bar?".length :=
  claim_C5.1 "Ok? Does it meet the bar?" "Does it meet the bar?" (by decide)

/-- C6: `analyze_requirement` follows the fixed decision table over
case-insensitive substring containment of the positive/negative keyword sets
in the lower-cased question: positive and not negative ↦ met at 0.7; negative
↦ not met at 0.7; neither ↦ unknown at 0.3 — each with its fixed reasoning
template. -/
theorem claim_C6 (q : String) :
    (has_positive (pyLower q) = true → has_negative (pyLower q) = false →
      analyze_requirement q = ⟨some true, 7/10,
        "Question contains positive indicators suggesting requirement may be met."⟩)
  ∧ (has_negative (pyLower q) = true →
      analyze_requirement q = ⟨some false, 7/10,
        "Question contains negative indicators suggesting requirement may not be met."⟩)
  ∧ (has_positive (pyLower q) = false → has_negative (pyLower q) = false →
      analyze_requirement q = ⟨none, 3/10,
        "Cannot determine requirement status from question text alone. Requires evidence review."⟩) := by
  refine ⟨?_, ?_, ?_⟩
  · intro h1 h2
    simp [analyze_requirement, h1, h2]
  · intro h1
    simp [analyze_requirement, h1]
  · intro h1 h2
    simp [analyze_requirement, h1, h2]

/-- C6 witness: the three branches at concrete questions. -/
theorem claim_C6_witness :
    analyze_requirement "Is it implemented?" = ⟨some true, 7/10,
      "Question contains positive indicators suggesting requirement may be met."⟩
  ∧ analyze_requirement "It lacks controls." = ⟨some false, 7/10,
      "Question contains negative indicators suggesting requirement may not be met."⟩
  ∧ analyze_requirement "Anything here?" = ⟨none, 3/10,
      "Cannot determine requirement status from question text alone. Requires evidence review."⟩ :=
  ⟨(claim_C6 "Is it implemented?").1 (by decide) (by decide),
   (claim_C6 "It lacks controls.").2.1 (by decide),
   (claim_C6 "Anything here?").2.2 (by decide) (by decide)⟩

/-- C7: `_normalize_bool` maps booleans to themselves, strings via the two
fixed (strip-then-lower) sets, everything else to unknown; and
`_derive_requirement_met` prefers the normalized `requirement_met` field and
falls back to the normalized answer, with the three spec examples. -/
theorem claim_C7 :
    (∀ b, _normalize_bool (.bool b) = some b)
  ∧ (∀ s, pyLower (pyStrip s) ∈
      ["true", "yes", "y", "met", "compliant", "satisfied", "fulfilled"] →
      _normalize_bool (.str s) = some true)
  ∧ (∀ s, pyLower (pyStrip s) ∈
      ["false", "no", "n", "not met", "non-compliant", "missing", "fails"] →
      _normalize_bool (.str s) = some false)
  ∧ (∀ s, pyLower (pyStrip s) ∉
      ["true", "yes", "y", "met", "compliant", "satisfied", "fulfilled"] →
      pyLower (pyStrip s) ∉
      ["false", "no", "n", "not met", "non-compliant", "missing", "fails"] →
      _normalize_bool (.str s) = none)
  ∧ (∀ v, (∀ b, v ≠ .bool b) → (∀ t, v ≠ .str t) → _normalize_bool v = none)
  ∧ (∀ a rv b, _normalize_bool rv = some b → _derive_requirement_met a rv = some b)
  ∧ (∀ a rv, _normalize_bool rv = none →
      _derive_requirement_met a rv = _normalize_bool a)
  ∧ _derive_requirement_met .null (.str "compliant") = some true
  ∧ _derive_requirement_met (.str "yes") .null = some true
  ∧ _derive_requirement_met .null .null = none := by
  refine ⟨fun b => rfl, ?_, ?_, ?_, ?_, ?_, ?_, rfl, rfl, rfl⟩
  · intro s h
    simp only [_normalize_bool]
    rw [if_pos h]
  · intro s h
    have h' : pyLower (pyStrip s) ∉
        ["true", "yes", "y", "met", "compliant", "satisfied", "fulfilled"] := by
      simp only [List.mem_cons, List.not_mem_nil, or_false] at h
      rcases h with h | h | h | h | h | h | h <;> rw [h] <;> decide
    simp only [_normalize_bool]
    rw [if_neg h', if_pos h]
  · intro s h1 h2
    simp only [_normalize_bool]
    rw [if_neg h1, if_neg h2]
  · intro v hb hs
    match v with
    | .null => rfl
    | .num _ => rfl
    | .arr _ => rfl
    | .obj _ => rfl
    | .bool b => exact absurd rfl (hb b)
    | .str t => exact absurd rfl (hs t)
  · intro a rv b h
    simp only [_derive_requirement_met, h]
  · intro a rv h
    simp only [_derive_requirement_met, h]

/-- C7 witness: the normalization rules at concrete inputs. -/
theorem claim_C7_witness :
    _normalize_bool (.str " YES ") = some true
  ∧ _normalize_bool (.str "Not Met") = some false
  ∧ _normalize_bool (.str "maybe") = none
  ∧ _normalize_bool (.arr []) = none
  ∧ _derive_requirement_met .null (.str "TRUE") = some true
  ∧ _derive_requirement_met (.str "y") (.num 2) = _normalize_bool (.str "y") :=
  ⟨claim_C7.2.1 " YES " (by decide),
   claim_C7.2.2.1 "Not Met" (by decide),
   claim_C7.2.2.2.1 "maybe" (by decide) (by decide),
   claim_C7.2.2.2.2.1 (.arr []) (fun b h => JVal.noConfusion h)
     (fun t h => JVal.noConfusion h),
   claim_C7.2.2.2.2.2.1 .null (.str "TRUE") true (by decide),
   claim_C7.2.2.2.2.2.2.1 (.str "y") (.num 2) (by decide)⟩

/-- C8 (code bug): `_extract_json_from_text` is claimed (and annotated,
`Optional[Dict]`) to return only JSON objects.  The strict whole-string parse
returns whatever JSON value the input is: on `"hi"` (a JSON string document)
the function returns a non-`None` value that is not an object.  The
brace-substring fallback and the `None`-on-failure behaviour are as claimed,
but this conjunct is refuted. -/
theorem claim_C8 :
    _extract_json_from_text "\"hi\"" = some (.str "hi")
  ∧ (∀ m, JVal.str "hi" ≠ .obj m)
  ∧ _extract_json_from_text "noise \x7b\"questions\": []\x7d noise" =
      some (.obj [("questions", .arr [])])
  ∧ _extract_json_from_text "" = none
  ∧ _extract_json_from_text "no braces at all" = none :=
  ⟨rfl, fun m h => JVal.noConfusion h, rfl, rfl, rfl⟩

/-- C9: every successful `AnalysisResponse` the endpoint returns satisfies
`total_questions = length questions`, `met_count` = number of records with
`requirement_met = true`, `not_met_count` = number with `false`, hence
`met_count + not_met_count ≤ total_questions`. -/
theorem claim_C9 (filename text : String) (llm : Except PyErr (Option (List JVal)))
    (r : AnalysisResponse) (h : upload_pdf filename text llm = .success r) :
    r.total_questions = r.questions.length
  ∧ r.met_count = r.questions.countP (fun q => q.requirement_met == some true)
  ∧ r.not_met_count = r.questions.countP (fun q => q.requirement_met == some false)
  ∧ r.met_count + r.not_met_count ≤ r.total_questions := by
  obtain ⟨results, rfl⟩ : ∃ results, r = mkResponse results := by
    unfold upload_pdf at h
    split at h
    · exact absurd h (by simp)
    · cases htry : uploadTry text llm with
      | ok r' =>
        rw [htry] at h
        obtain ⟨results, hr'⟩ := uploadTry_ok_shape text llm r' htry
        exact ⟨results, by rw [← (HttpOutcome.success.injEq _ _).mp h, hr']⟩
      | error e => rw [htry] at h; exact absurd h (by simp)
  refine ⟨rfl, rfl, rfl, ?_⟩
  exact countP_pair_le results _ _ (by
    intro a h1 h2
    have e1 : a.requirement_met = some true := by simpa using h1
    have e2 : a.requirement_met = some false := by simpa using h2
    rw [e1] at e2
    simp at e2)

/-- C10: every string returned by `extract_questions_from_text` consists of
'?'-free characters followed by a final `'?'` — i.e. it contains exactly one
`'?'` and that is its last character (all three regex families forbid `?`
inside the match and require it as the terminator, and trimming removes only
surrounding whitespace). -/
theorem claim_C10 (s q : String) (hq : q ∈ extract_questions_from_text s) :
    ∃ u, q.data = u ++ ['?'] ∧ '?' ∉ u := by
  obtain ⟨y, hy, rfl, -⟩ := mem_extract_imp s q hq
  obtain ⟨u, hu, hnin⟩ := rawQuestions_shape s.data y hy
  refine ⟨u.dropWhile isPySpace, ?_,
    fun hmem => hnin (mem_of_mem_dropWhile isPySpace u '?' hmem)⟩
  show stripChars y.data = _
  rw [hu]
  exact stripChars_qm u

/-- C10 witness: the single-final-`?` shape at a concrete extraction. -/
theorem claim_C10_witness :
    ∃ u, ("Does it meet the bar?" : String).data = u ++ ['?'] ∧ '?' ∉ u :=
  claim_C10 "Ok? Does it meet the bar?" "Does it meet the bar?" (by decide)

/-- C9 witness: the invariant at a concrete successful request (heuristic
path, two extracted questions, both met). -/
theorem claim_C9_witness :
    upload_pdf "a.pdf" "1. Is the policy implemented here?" (.ok none) =
      .success (mkResponse
        [⟨"1. Is the policy implemented here?", some true, 7/10,
          "Question contains positive indicators suggesting requirement may be met."⟩,
         ⟨"Is the policy implemented here?", some true, 7/10,
          "Question contains positive indicators suggesting requirement may be met."⟩])
  ∧ ((mkResponse
        [⟨"1. Is the policy implemented here?", some true, 7/10,
          "Question contains positive indicators suggesting requirement may be met."⟩,
         ⟨"Is the policy implemented here?", some true, 7/10,
          "Question contains positive indicators suggesting requirement may be met."⟩]).met_count
      + (mkResponse
        [⟨"1. Is the policy implemented here?", some true, 7/10,
          "Question contains positive indicators suggesting requirement may be met."⟩,
         ⟨"Is the policy implemented here?", some true, 7/10,
          "Question contains positive indicators suggesting requirement may be met."⟩]).not_met_count
      ≤ (mkResponse
        [⟨"1. Is the policy implemented here?", some true, 7/10,
          "Question contains positive indicators suggesting requirement may be met."⟩,
         ⟨"Is the policy implemented here?", some true, 7/10,
          "Question contains positive indicators suggesting requirement may be met."⟩]).total_questions) :=
  ⟨rfl,
   (claim_C9 "a.pdf" "1. Is the policy implemented here?" (.ok none) _ rfl).2.2.2⟩

end PdfAnalyzer
